import Mathlib

/-!
Shallow embedding of the offline worklog application (`assets/js/app.js`).

JavaScript values are dynamically typed, so fields that the code may find
absent or malformed are modelled with `Option`: `none` stands for
`undefined`/`null`/non-finite (`NaN`) where the code tests for those, and
arithmetic on such values propagates `none` the way JS propagates `NaN`.
Timestamps and durations are `Int` milliseconds; every place the code calls
`Date.now()` the embedding takes the instant as an explicit parameter.
-/

namespace Worklog

/-- A log entry as built by `finalizeLog` (app.js:472-477). -/
structure LogEntry where
  date : String
  duration : String
  comment : String
  timestamp : Int
deriving DecidableEq

/-- The task record (app.js data model; see the bootstrap sample and
`normalizeTask`).  `type'` stands for the JS field `type`. -/
structure Task where
  id : String
  type' : String
  name : Option String
  reference : Option String
  description : Option String
  isCritical : Bool
  elapsedMs : Option Int
  logs : Option (List LogEntry)
  isRunning : Bool
  isArchived : Bool
  startedAt : Option Int
  lastLog : Option String
  createdAt : Option Int
  lastUpdatedMs : Option Int
  lastChecked : Option Int
deriving DecidableEq

/-- The transient pending session set by `stopTimer` (app.js:457):
`{ id: task.id, duration }`.  `duration` is `none` when the JS computation
`Date.now() - task.startedAt` would have produced `NaN`. -/
structure PendingLog where
  id : String
  duration : Option Int
deriving DecidableEq

/-- The engine state: the in-memory task list and the single pending-log
slot (app.js:1-11, fields `tasks` and `pendingLog`). -/
structure AppState where
  tasks : List Task
  pendingLog : Option PendingLog
deriving DecidableEq

/-- JS `String.prototype.trim` on the character list: strip leading and
trailing whitespace. -/
def trimChars (l : List Char) : List Char :=
  ((l.dropWhile Char.isWhitespace).reverse.dropWhile Char.isWhitespace).reverse

/-- JS `s.trim()`. -/
def jsTrim (s : String) : String :=
  String.mk (trimChars s.data)

/-- JS `s.toLowerCase()` on the character list. -/
def jsToLower (s : String) : String :=
  String.mk (s.data.map Char.toLower)

/-- JS `x || d` for a possibly-undefined string `x` (empty string is falsy). -/
def jsOrStr (x : Option String) (d : String) : String :=
  match x with
  | none => d
  | some s => if s = "" then d else s

/-- JS `+` on possibly-NaN numbers: `NaN` (modelled `none`) propagates. -/
def optAdd (a b : Option Int) : Option Int :=
  match a, b with
  | some x, some y => some (x + y)
  | _, _ => none

/-- JS `String(n).padStart(2, '0')`. -/
def padStart2 (s : String) : String :=
  if s.length < 2 then String.mk (List.replicate (2 - s.length) '0') ++ s else s

/-- `formatDuration` (app.js:548-560): `HH:MM:SS` from milliseconds.
`Math.floor(x / k)` is `Int.fdiv`; the JS `%` remainder is `Int.tmod`. -/
def formatDuration (ms : Int) : String :=
  let totalSeconds := Int.fdiv ms 1000
  let hours := padStart2 (toString (Int.fdiv totalSeconds 3600))
  let minutes := padStart2 (toString (Int.fdiv (Int.tmod totalSeconds 3600) 60))
  let seconds := padStart2 (toString (Int.tmod totalSeconds 60))
  hours ++ ":" ++ minutes ++ ":" ++ seconds

/-- `formatDuration` applied to a possibly-NaN duration: on `NaN` every
component renders as the string `NaN` in JS. -/
def formatDurationOpt : Option Int → String
  | some ms => formatDuration ms
  | none => "NaN:NaN:NaN"

/-- `normalizeTask` (app.js:55-75), with `now` standing for `Date.now()`.
`Number.isFinite(x) ? x : d` on a possibly-non-finite field is `Option.getD`;
`task.name?.trim() || 'Untitled item'` is `jsOrStr` over the optionally
trimmed name; `delete normalized.startedAt` clears `startedAt`. -/
def normalizeTask (now : Int) (task : Task) : Task :=
  let createdAt := task.createdAt.getD now
  let lastUpdatedMs := task.lastUpdatedMs.getD createdAt
  { task with
    name := some (jsOrStr (task.name.map jsTrim) "Untitled item")
    description := some (jsOrStr task.description "")
    logs := some (task.logs.getD [])
    elapsedMs := some (task.elapsedMs.getD 0)
    isRunning := false
    isArchived := task.isArchived
    createdAt := some createdAt
    lastUpdatedMs := some lastUpdatedMs
    lastChecked := task.lastChecked
    startedAt := none }

/-- The load/restore path (app.js:137-139): the saved (or seed) task list is
mapped through `normalizeTask`. -/
def loadTasks (now : Int) (saved : List Task) : List Task :=
  saved.map (normalizeTask now)

/-- The name key of `calculateDuplicates` (app.js:82):
`typeof task.name === 'string' ? task.name.trim().toLowerCase() : ''`. -/
def nameKey (task : Task) : String :=
  match task.name with
  | some s => jsToLower (jsTrim s)
  | none => ""

/-- The reference key of `calculateDuplicates` (app.js:83). -/
def referenceKey (task : Task) : String :=
  match task.reference with
  | some s => jsToLower (jsTrim s)
  | none => ""

/-- One `counts.set(key, (counts.get(key) || 0) + 1)` step on a JS `Map`,
modelled as an insertion-ordered association list: an existing key is
updated in place, a new key is appended. -/
def bump (k : String) : List (String × Nat) → List (String × Nat)
  | [] => [(k, 1)]
  | (k2, n) :: rest => if k2 = k then (k2, n + 1) :: rest else (k2, n) :: bump k rest

/-- The counting loop of `calculateDuplicates` (app.js:81-87) for one key
function: empty keys are skipped. -/
def countsOf (key : Task → String) (tasks : List Task) : List (String × Nat) :=
  tasks.foldl (fun m t => let k := key t; if k = "" then m else bump k m) []

/-- One result set of `calculateDuplicates` (app.js:89-92): keys whose count
exceeds 1, in map order. -/
def dupKeys (key : Task → String) (tasks : List Task) : List String :=
  ((countsOf key tasks).filter (fun e => 1 < e.2)).map (fun e => e.1)

/-- `calculateDuplicates` (app.js:77-93): the duplicate-name and
duplicate-reference sets (as lists in JS `Map`/`Set` insertion order). -/
def calculateDuplicates (tasks : List Task) : List String × List String :=
  (dupKeys nameKey tasks, dupKeys referenceKey tasks)

/-- Mutation of the first task matching a predicate, as JS
`tasks.find(...)` followed by in-place field assignment. -/
def updateFirst (p : α → Bool) (f : α → α) : List α → List α
  | [] => []
  | x :: xs => if p x then f x :: xs else x :: updateFirst p f xs

/-- Removal of the first task matching a predicate, as JS
`findIndex` + `splice(index, 1)` (app.js:513,530). -/
def removeFirst (p : α → Bool) : List α → List α
  | [] => []
  | x :: xs => if p x then xs else x :: removeFirst p xs

/-- `startTimer` (app.js:424-443), display-tick registry omitted: silent
return when the task is missing, already running, or archived; otherwise
sets `isRunning`, `startedAt = now`, `lastUpdatedMs = now`. -/
def startTimer (now : Int) (id : String) (st : AppState) : AppState :=
  match st.tasks.find? (fun t => t.id == id) with
  | none => st
  | some task =>
    if task.isRunning || task.isArchived then st
    else
      let upd : Task → Task := fun t =>
        { t with isRunning := true, startedAt := some now, lastUpdatedMs := some now }
      { st with tasks := updateFirst (fun t => t.id == id) upd st.tasks }

/-- `stopTimer` (app.js:445-463), dialog and tick registry omitted: silent
return when the task is missing or not running; otherwise computes
`duration = now - startedAt` (NaN, i.e. `none`, when `startedAt` is absent),
clears `isRunning`/`startedAt`, stamps `lastUpdatedMs`, and stores the
pending session. -/
def stopTimer (now : Int) (id : String) (st : AppState) : AppState :=
  match st.tasks.find? (fun t => t.id == id) with
  | none => st
  | some task =>
    if !task.isRunning then st
    else
      let duration : Option Int := task.startedAt.map (fun s => now - s)
      { tasks := updateFirst (fun t => t.id == id)
          (fun t => { t with isRunning := false, startedAt := none,
                             lastUpdatedMs := some now }) st.tasks,
        pendingLog := some { id := task.id, duration := duration } }

/-- `finalizeLog` (app.js:465-485), with `now` for `Date.now()` and
`dateStr` for `new Date().toLocaleDateString()`: silent return when no
pending log or the task is gone (the pending log then stays set); otherwise
adds the pending duration to `elapsedMs`, unshifts a log entry, updates the
summary fields, and clears the pending log. -/
def finalizeLog (now : Int) (dateStr : String) (comment : String) (st : AppState) : AppState :=
  match st.pendingLog with
  | none => st
  | some pl =>
    match st.tasks.find? (fun t => t.id == pl.id) with
    | none => st
    | some _ =>
      let entry : LogEntry :=
        { date := dateStr, duration := formatDurationOpt pl.duration,
          comment := comment, timestamp := now }
      { tasks := updateFirst (fun t => t.id == pl.id)
          (fun t => { t with
            elapsedMs := optAdd t.elapsedMs pl.duration,
            logs := t.logs.map (fun l => entry :: l),
            lastLog := some (entry.date ++ " · " ++ entry.duration),
            lastUpdatedMs := some entry.timestamp,
            lastChecked := some entry.timestamp }) st.tasks,
        pendingLog := none }

/-- The log-form submit handler (app.js:239-250): trims the comment, returns
untouched when there is no pending log or the trimmed comment is empty
(only a warning is shown), otherwise commits via `finalizeLog`. -/
def confirmSubmit (now : Int) (dateStr : String) (rawComment : String) (st : AppState) : AppState :=
  match st.pendingLog with
  | none => st
  | some _ =>
    if jsTrim rawComment = "" then st
    else finalizeLog now dateStr (jsTrim rawComment) st

/-- The discard-button handler (app.js:252-264): no-op without a pending
log; otherwise, if the task still exists, clears `isRunning`, writes the
discard marker to `lastLog`, stamps `lastUpdatedMs`; the pending log is
cleared in every case. -/
def discardLog (now : Int) (st : AppState) : AppState :=
  match st.pendingLog with
  | none => st
  | some pl =>
    { tasks := updateFirst (fun t => t.id == pl.id)
        (fun t => { t with isRunning := false,
                           lastLog := some "Discarded session",
                           lastUpdatedMs := some now }) st.tasks,
      pendingLog := none }

/-- `markChecked` (app.js:487-496): `task.lastUpdatedMs || 0` is modelled
by `Option.getD 0`. -/
def markChecked (now : Int) (id : String) (st : AppState) : AppState :=
  match st.tasks.find? (fun t => t.id == id) with
  | none => st
  | some _ =>
    let upd : Task → Task := fun t =>
      { t with lastChecked := some now,
               lastUpdatedMs := some (max (t.lastUpdatedMs.getD 0) now) }
    { st with tasks := updateFirst (fun t => t.id == id) upd st.tasks }

/-- `archiveTask` (app.js:498-510): blocked (alert) while running,
otherwise toggles the archive flag. -/
def archiveTask (now : Int) (id : String) (st : AppState) : AppState :=
  match st.tasks.find? (fun t => t.id == id) with
  | none => st
  | some task =>
    if task.isRunning then st
    else
      let upd : Task → Task := fun t =>
        { t with isArchived := !t.isArchived, lastUpdatedMs := some now }
      { st with tasks := updateFirst (fun t => t.id == id) upd st.tasks }

/-- `deleteTask` (app.js:512-533), user confirmation taken as given:
blocked while running, otherwise removes the task. -/
def deleteTask (id : String) (st : AppState) : AppState :=
  match st.tasks.find? (fun t => t.id == id) with
  | none => st
  | some task =>
    if task.isRunning then st
    else { st with tasks := removeFirst (fun t => t.id == id) st.tasks }

/-- The task-form submit path (app.js:201-218): the new record is passed
through `normalizeTask` and unshifted onto the task list. -/
def createTask (now : Int) (raw : Task) (st : AppState) : AppState :=
  { st with tasks := normalizeTask now raw :: st.tasks }

/-- JS `value.replace(/"/g, '""')` (app.js:591). -/
def csvEscape (v : String) : String :=
  String.mk (v.data.foldr (fun c acc => if c = '"' then '"' :: '"' :: acc else c :: acc) [])

/-- One CSV cell: `"` ++ escaped value ++ `"` (app.js:591). -/
def csvCell (v : String) : String :=
  "\"" ++ csvEscape v ++ "\""

/-- `exportTask`'s CSV payload (app.js:583-592), download mechanics
omitted: `none` models the no-logs alert path, otherwise the header row and
one row per log entry, every row (the header row included) quoted cell by
cell and joined by commas, rows joined by newlines. -/
def exportCsv (task : Task) : Option String :=
  let logs := task.logs.getD []
  if logs.isEmpty then none
  else
    let headers := ["Name", "Date", "Time Spent", "Comment"]
    let rows := logs.map (fun log => [task.name.getD "", log.date, log.duration, log.comment])
    some (String.intercalate "\n"
      ((headers :: rows).map (fun row => String.intercalate "," (row.map csvCell))))

end Worklog

namespace Worklog

/-- One engine operation performed at wall-clock instant `now`: the timer
buttons, the log-dialog handlers, and the store operations wired in
`attachEvents` and the row renderer. -/
inductive Step : AppState → Int → AppState → Prop
  | start (now : Int) (id : String) (st : AppState) : Step st now (startTimer now id st)
  | stop (now : Int) (id : String) (st : AppState) : Step st now (stopTimer now id st)
  | confirm (now : Int) (dateStr rawComment : String) (st : AppState) :
      Step st now (confirmSubmit now dateStr rawComment st)
  | discard (now : Int) (st : AppState) : Step st now (discardLog now st)
  | create (now : Int) (raw : Task) (st : AppState) : Step st now (createTask now raw st)
  | archive (now : Int) (id : String) (st : AppState) : Step st now (archiveTask now id st)
  | deleteT (now : Int) (id : String) (st : AppState) : Step st now (deleteTask id st)
  | check (now : Int) (id : String) (st : AppState) : Step st now (markChecked now id st)

/-- States reachable from a load (`bootstrapApp`, app.js:137-139) by engine
operations run at non-decreasing wall-clock instants. -/
inductive ReachableAt : AppState → Int → Prop
  | init (now : Int) (saved : List Task) :
      ReachableAt { tasks := loadTasks now saved, pendingLog := none } now
  | step {st : AppState} {now now2 : Int} {st2 : AppState} :
      ReachableAt st now → now ≤ now2 → Step st now2 st2 → ReachableAt st2 now2

/-- The timer-safety invariant at instant `now`: a running task records a
start instant no later than `now`, and a stored pending session holds a
real (non-NaN) duration `≥ 0`. -/
def TimerInv (st : AppState) (now : Int) : Prop :=
  (∀ t ∈ st.tasks, t.isRunning = true → ∃ s, t.startedAt = some s ∧ s ≤ now) ∧
  (∀ pl, st.pendingLog = some pl → ∃ d, pl.duration = some d ∧ 0 ≤ d)

/-- A fully-populated baseline task, used to build concrete witness states. -/
def blankTask : Task :=
  { id := "t1", type' := "task", name := some "Sample", reference := some "Task #001",
    description := some "", isCritical := false, elapsedMs := some 0, logs := some [],
    isRunning := false, isArchived := false, startedAt := none, lastLog := none,
    createdAt := some 0, lastUpdatedMs := some 0, lastChecked := none }

/-- The spec's CSV example log entry: `{date:"1/1/2024", duration:"00:10:00",
comment:'Said "hi"'}`. -/
def exampleLog : LogEntry :=
  { date := "1/1/2024", duration := "00:10:00", comment := "Said \"hi\"", timestamp := 0 }

/-- The spec's CSV example task: named `Task A`, with `exampleLog` as its
single log entry. -/
def exampleTaskA : Task :=
  { blankTask with id := "a", name := some "Task A", logs := some [exampleLog] }

/-- A second, more recent log entry for the export-order example. -/
def exampleLog2 : LogEntry :=
  { date := "1/2/2024", duration := "00:01:00", comment := "b", timestamp := 1 }

/-- The example task with two log entries, most recent first. -/
def exampleTaskA2 : Task :=
  { exampleTaskA with logs := some [exampleLog2, exampleLog] }

/-- One confirmed session against a task: a stop has recorded the pending
duration `duration` (app.js:449,457) and the confirm at instant `now`
supplies `comment`; `dateStr` is the locale date string at commit time. -/
structure SessionCommit where
  duration : Int
  now : Int
  dateStr : String
  comment : String

/-- One stop-confirm round against task `tid`: install the pending session
the stop produced, then commit it through `finalizeLog`. -/
def commitOne (tid : String) (st : AppState) (s : SessionCommit) : AppState :=
  finalizeLog s.now s.dateStr s.comment
    { st with pendingLog := some { id := tid, duration := some s.duration } }

/-- A sequence of confirmed sessions, committed in order. -/
def commitAll (tid : String) (st : AppState) (ss : List SessionCommit) : AppState :=
  ss.foldl (commitOne tid) st

/-- JS `counts.get(k) || 0` on the association-list model of the counter
map built by `calculateDuplicates`. -/
def lookupC : List (String × Nat) → String → Nat
  | [], _ => 0
  | (k2, n) :: rest, k => if k2 = k then n else lookupC rest k

/-- The key column of the counter map. -/
def keysOf (m : List (String × Nat)) : List String :=
  m.map (fun e => e.1)

/-- Tasks for the spec's duplicate-detection example: two case/whitespace
variants of `Alpha` and a uniquely named `Beta`. -/
def dupExampleTasks : List Task :=
  [{ blankTask with id := "x", name := some "Alpha" },
   { blankTask with id := "y", name := some "alpha " },
   { blankTask with id := "z", name := some "Beta" }]

/-- A stored record as a crashed session would leave it: flagged running,
with a start instant, a whitespace-only name, malformed logs and a
non-finite `elapsedMs`. -/
def rawRestoreExample : Task :=
  { blankTask with isRunning := true
                   startedAt := some 5
                   name := some "   "
                   logs := none
                   elapsedMs := none }

/-! ### Helper lemmas about `dropWhile`, trimming and first-match updates -/

theorem dropWhile_head_false (p : α → Bool) (l : List α) :
    ∀ x, (l.dropWhile p).head? = some x → p x = false := by
  induction l with
  | nil => intro x h; simp [List.dropWhile] at h
  | cons a as ih =>
    intro x h
    by_cases hpa : p a = true
    · rw [List.dropWhile_cons_of_pos hpa] at h
      exact ih x h
    · rw [List.dropWhile_cons_of_neg hpa] at h
      simp at h
      subst h
      simpa using hpa

theorem dropWhile_of_head_false (p : α → Bool) (l : List α)
    (h : ∀ x, l.head? = some x → p x = false) : l.dropWhile p = l := by
  cases l with
  | nil => rfl
  | cons a as =>
    have : p a = false := h a rfl
    simp [List.dropWhile, this]

theorem dropWhile_dropWhile (p : α → Bool) (l : List α) :
    (l.dropWhile p).dropWhile p = l.dropWhile p :=
  dropWhile_of_head_false p _ (dropWhile_head_false p l)

theorem getLast?_dropWhile (p : α → Bool) (l : List α)
    (h : l.dropWhile p ≠ []) : (l.dropWhile p).getLast? = l.getLast? := by
  induction l with
  | nil => simp [List.dropWhile] at h
  | cons a as ih =>
    by_cases hpa : p a = true
    · rw [List.dropWhile_cons_of_pos hpa] at h ⊢
      rw [ih h]
      have hne : as ≠ [] := by
        intro hnil
        exact h (by simp [hnil, List.dropWhile])
      cases as with
      | nil => exact absurd rfl hne
      | cons b bs => simp [List.getLast?_cons_cons]
    · rw [List.dropWhile_cons_of_neg hpa]

end Worklog

namespace Worklog

theorem trimChars_head_false (l : List Char) :
    ∀ x, (trimChars l).head? = some x → Char.isWhitespace x = false := by
  intro x hx
  unfold trimChars at hx
  rw [List.head?_reverse] at hx
  by_cases hC : (l.dropWhile Char.isWhitespace).reverse.dropWhile Char.isWhitespace = []
  · rw [hC] at hx; simp at hx
  · rw [getLast?_dropWhile _ _ hC, List.getLast?_reverse] at hx
    exact dropWhile_head_false _ _ x hx

theorem trimChars_idem (l : List Char) : trimChars (trimChars l) = trimChars l := by
  have h1 : (trimChars l).dropWhile Char.isWhitespace = trimChars l :=
    dropWhile_of_head_false _ _ (trimChars_head_false l)
  show ((((trimChars l).dropWhile Char.isWhitespace).reverse).dropWhile
      Char.isWhitespace).reverse = trimChars l
  rw [h1]
  unfold trimChars
  rw [List.reverse_reverse, dropWhile_dropWhile]

theorem jsTrim_idem (s : String) : jsTrim (jsTrim s) = jsTrim s := by
  unfold jsTrim
  exact congrArg String.mk (trimChars_idem s.data)

theorem find?_updateFirst (p : α → Bool) (f : α → α) (l : List α)
    (hpf : ∀ a, p a = true → p (f a) = true) :
    (updateFirst p f l).find? p = (l.find? p).map f := by
  induction l with
  | nil => rfl
  | cons x xs ih =>
    by_cases hx : p x = true
    · rw [updateFirst, if_pos hx, List.find?_cons_of_pos _ hx,
        List.find?_cons_of_pos _ (hpf x hx)]
      rfl
    · rw [updateFirst, if_neg hx, List.find?_cons_of_neg _ hx,
        List.find?_cons_of_neg _ hx, ih]

theorem mem_updateFirst (p : α → Bool) (f : α → α) (l : List α) :
    ∀ x ∈ updateFirst p f l, x ∈ l ∨ ∃ y ∈ l, x = f y := by
  induction l with
  | nil => intro x hx; simp [updateFirst] at hx
  | cons a as ih =>
    intro x hx
    by_cases ha : p a = true
    · rw [updateFirst, if_pos ha] at hx
      rcases List.mem_cons.mp hx with h | h
      · exact Or.inr ⟨a, List.mem_cons_self a as, h⟩
      · exact Or.inl (List.mem_cons_of_mem a h)
    · rw [updateFirst, if_neg ha] at hx
      rcases List.mem_cons.mp hx with h | h
      · exact Or.inl (h ▸ List.mem_cons_self a as)
      · rcases ih x h with h2 | ⟨y, hy, hxy⟩
        · exact Or.inl (List.mem_cons_of_mem a h2)
        · exact Or.inr ⟨y, List.mem_cons_of_mem a hy, hxy⟩

theorem mem_removeFirst (p : α → Bool) (l : List α) :
    ∀ x ∈ removeFirst p l, x ∈ l := by
  induction l with
  | nil => intro x hx; simp [removeFirst] at hx
  | cons a as ih =>
    intro x hx
    by_cases ha : p a = true
    · rw [removeFirst, if_pos ha] at hx
      exact List.mem_cons_of_mem a hx
    · rw [removeFirst, if_neg ha] at hx
      rcases List.mem_cons.mp hx with h | h
      · exact h ▸ List.mem_cons_self a as
      · exact List.mem_cons_of_mem a (ih x h)

end Worklog

namespace Worklog

/-! ### Normalizer lemmas -/

theorem jsTrim_untitled : jsTrim "Untitled item" = "Untitled item" := by decide

theorem jsOrStr_name_idem (x : Option String) :
    jsOrStr (some (jsTrim (jsOrStr (x.map jsTrim) "Untitled item"))) "Untitled item"
      = jsOrStr (x.map jsTrim) "Untitled item" := by
  cases x with
  | none => simp [jsOrStr, jsTrim_untitled]
  | some s =>
    by_cases h : jsTrim s = ""
    · simp [jsOrStr, h, jsTrim_untitled]
    · simp [jsOrStr, h, jsTrim_idem]

theorem jsOrStr_desc_idem (x : Option String) :
    jsOrStr (some (jsOrStr x "")) "" = jsOrStr x "" := by
  cases x with
  | none => simp [jsOrStr]
  | some s =>
    by_cases h : s = "" <;> simp [jsOrStr, h]

/-- C9: the Normalizer is idempotent: renormalizing an already-normalized
task (at any later instant) changes no field. -/
theorem c9_normalize_idem (now2 now1 : Int) (t : Task) :
    normalizeTask now2 (normalizeTask now1 t) = normalizeTask now1 t := by
  cases t with
  | mk id ty nm rf ds cr el lg ir ar sa ll ca lu lc =>
    simp only [normalizeTask, Option.map_some', Option.getD_some, Task.mk.injEq,
      and_true, true_and]
    constructor
    · exact congrArg some (jsOrStr_name_idem nm)
    · exact congrArg some (jsOrStr_desc_idem ds)

/-- C3: normalization forces `isRunning = false` and strips `startedAt`
unconditionally, defaults an absent or whitespace-only name to
`"Untitled item"`, replaces absent/non-array logs by `[]`, coerces a
non-finite `elapsedMs` to `0`; hence every task coming out of the
load/restore path is not running and carries no `startedAt`. -/
theorem c3_normalize_restore (now : Int) (t : Task) :
    (normalizeTask now t).isRunning = false ∧
    (normalizeTask now t).startedAt = none ∧
    ((t.name = none ∨ ∃ s, t.name = some s ∧ jsTrim s = "") →
      (normalizeTask now t).name = some "Untitled item") ∧
    (t.logs = none → (normalizeTask now t).logs = some []) ∧
    (t.elapsedMs = none → (normalizeTask now t).elapsedMs = some 0) ∧
    (∀ saved : List Task, ∀ u ∈ loadTasks now saved,
      u.isRunning = false ∧ u.startedAt = none) := by
  refine ⟨rfl, rfl, ?_, ?_, ?_, ?_⟩
  · intro h
    rcases h with h | ⟨s, hs, hts⟩
    · simp [normalizeTask, h, jsOrStr]
    · simp [normalizeTask, hs, jsOrStr, hts]
  · intro h; simp [normalizeTask, h]
  · intro h; simp [normalizeTask, h]
  · intro saved u hu
    rcases List.mem_map.mp hu with ⟨t0, _, rfl⟩
    exact ⟨rfl, rfl⟩

/-- Witness for C3: a stored record that claims to be running mid-session,
with a whitespace name, malformed logs and a non-finite `elapsedMs`, is
restored as a clean, idle task. -/
theorem c3_witness :
    (normalizeTask 9 rawRestoreExample).isRunning = false ∧
    (normalizeTask 9 rawRestoreExample).startedAt = none ∧
    (normalizeTask 9 rawRestoreExample).name = some "Untitled item" ∧
    (normalizeTask 9 rawRestoreExample).logs = some [] ∧
    (normalizeTask 9 rawRestoreExample).elapsedMs = some 0 := by
  obtain ⟨h1, h2, h3, h4, h5, _⟩ := c3_normalize_restore 9 rawRestoreExample
  exact ⟨h1, h2, h3 (Or.inr ⟨"   ", rfl, by decide⟩), h4 rfl, h5 rfl⟩

/-! ### CSV export (C5) -/

/-- C5 counterexample: on the spec's own example task the exporter does not
produce the spec's string with an unquoted header row. -/
theorem c5_counterexample :
    exportCsv exampleTaskA ≠
      some "Name,Date,Time Spent,Comment\n\"Task A\",\"1/1/2024\",\"00:10:00\",\"Said \"\"hi\"\"\"" := by
  decide

/-- C5 (amended): export fails exactly when the task has no log entries;
otherwise it yields the header row — quoted cell by cell like the data
rows — followed by one quoted row per log entry in stored
(most-recent-first) order, inner double-quotes doubled, rows joined by
newline; concretely on the spec's example task and on a two-entry variant. -/
theorem c5_export_quoted_header :
    (∀ t : Task, exportCsv t = none ↔ (t.logs.getD []).isEmpty = true) ∧
    exportCsv exampleTaskA =
      some "\"Name\",\"Date\",\"Time Spent\",\"Comment\"\n\"Task A\",\"1/1/2024\",\"00:10:00\",\"Said \"\"hi\"\"\"" ∧
    exportCsv exampleTaskA2 =
      some ("\"Name\",\"Date\",\"Time Spent\",\"Comment\"\n\"Task A\",\"1/2/2024\",\"00:01:00\",\"b\"\n" ++
        "\"Task A\",\"1/1/2024\",\"00:10:00\",\"Said \"\"hi\"\"\"") := by
  refine ⟨?_, by decide, by decide⟩
  intro t
  unfold exportCsv
  by_cases h : (t.logs.getD []).isEmpty = true <;> simp [h]

end Worklog

namespace Worklog

theorem find?_updateFirst_id (key : String) (f : Task → Task)
    (hid : ∀ a, (f a).id = a.id) (l : List Task) :
    (updateFirst (fun x => x.id == key) f l).find? (fun x => x.id == key) =
      (l.find? (fun x => x.id == key)).map f := by
  apply find?_updateFirst
  intro a ha
  show ((f a).id == key) = true
  rw [hid a]
  exact ha

theorem finalizeLog_found (now : Int) (dateStr comment : String) (st : AppState)
    (pl : PendingLog) (t : Task)
    (hp : st.pendingLog = some pl)
    (hfind : st.tasks.find? (fun x => x.id == pl.id) = some t) :
    (finalizeLog now dateStr comment st).tasks.find? (fun x => x.id == pl.id) =
      some { t with
             elapsedMs := optAdd t.elapsedMs pl.duration
             logs := t.logs.map (fun l =>
               ({ date := dateStr, duration := formatDurationOpt pl.duration,
                  comment := comment, timestamp := now } : LogEntry) :: l)
             lastLog := some (dateStr ++ " · " ++ formatDurationOpt pl.duration)
             lastUpdatedMs := some now
             lastChecked := some now } ∧
    (finalizeLog now dateStr comment st).pendingLog = none := by
  unfold finalizeLog
  rw [hp]
  simp only []
  rw [hfind]
  simp only []
  constructor
  · refine Eq.trans (find?_updateFirst_id pl.id _ ?_ st.tasks) ?_
    · intro a
      rfl
    · rw [hfind]
      rfl
  · trivial

/-- C2: while a session is pending, confirming with a comment that trims to
empty fails and changes nothing (the session stays pending); confirming
with a non-empty trimmed comment appends a log entry carrying that comment
to the front of the task's logs and clears the pending session. -/
theorem c2_confirm_requires_comment (now : Int) (dateStr rawComment : String)
    (st : AppState) (pl : PendingLog) (hp : st.pendingLog = some pl) :
    (jsTrim rawComment = "" →
      confirmSubmit now dateStr rawComment st = st ∧
      (confirmSubmit now dateStr rawComment st).pendingLog = some pl) ∧
    (jsTrim rawComment ≠ "" →
      ∀ t l0, st.tasks.find? (fun x => x.id == pl.id) = some t → t.logs = some l0 →
        ∃ t2 entry, (confirmSubmit now dateStr rawComment st).tasks.find?
            (fun x => x.id == pl.id) = some t2 ∧
          t2.logs = some (entry :: l0) ∧
          entry.comment = jsTrim rawComment ∧
          t2.elapsedMs = optAdd t.elapsedMs pl.duration ∧
          (confirmSubmit now dateStr rawComment st).pendingLog = none) := by
  have hred : confirmSubmit now dateStr rawComment st =
      if jsTrim rawComment = "" then st
      else finalizeLog now dateStr (jsTrim rawComment) st := by
    unfold confirmSubmit
    rw [hp]
  constructor
  · intro h
    rw [hred, if_pos h]
    exact ⟨rfl, hp⟩
  · intro h t l0 hfind hlogs
    rw [hred, if_neg h]
    obtain ⟨h1, h2⟩ := finalizeLog_found now dateStr (jsTrim rawComment) st pl t hp hfind
    refine ⟨_, { date := dateStr, duration := formatDurationOpt pl.duration, comment := jsTrim rawComment, timestamp := now }, h1, ?_, rfl, rfl, h2⟩
    show Option.map _ t.logs = _
    rw [hlogs]
    rfl

/-- C4: while a session is pending for an existing task, discarding leaves
`elapsedMs` and `logs` untouched, marks `lastLog` with the discard marker,
stops the task and clears the pending session. -/
theorem c4_discard_frame (now : Int) (st : AppState) (pl : PendingLog) (t : Task)
    (hp : st.pendingLog = some pl)
    (hfind : st.tasks.find? (fun x => x.id == pl.id) = some t) :
    ∃ t2, (discardLog now st).tasks.find? (fun x => x.id == pl.id) = some t2 ∧
      t2.elapsedMs = t.elapsedMs ∧ t2.logs = t.logs ∧
      t2.lastLog = some "Discarded session" ∧ t2.isRunning = false ∧
      (discardLog now st).pendingLog = none := by
  unfold discardLog
  rw [hp]
  simp only []
  have hF := find?_updateFirst_id pl.id
    (fun t => { t with isRunning := false, lastLog := some "Discarded session", lastUpdatedMs := some now })
    (fun a => rfl) st.tasks
  rw [hfind] at hF
  exact ⟨_, hF, rfl, rfl, rfl, rfl, trivial⟩

end Worklog

namespace Worklog

/-- C8: starting a missing, already-running, or archived task changes
nothing at all (silent no-op); when the task exists idle and unarchived,
start marks it running with `startedAt = now` and `lastUpdatedMs = now`. -/
theorem c8_start_noop_or_start (now : Int) (id : String) (st : AppState) :
    (st.tasks.find? (fun x => x.id == id) = none → startTimer now id st = st) ∧
    (∀ t, st.tasks.find? (fun x => x.id == id) = some t →
      (t.isRunning = true ∨ t.isArchived = true) → startTimer now id st = st) ∧
    (∀ t, st.tasks.find? (fun x => x.id == id) = some t →
      t.isRunning = false → t.isArchived = false →
      ∃ t2, (startTimer now id st).tasks.find? (fun x => x.id == id) = some t2 ∧
        t2.isRunning = true ∧ t2.startedAt = some now ∧ t2.lastUpdatedMs = some now ∧
        (startTimer now id st).pendingLog = st.pendingLog) := by
  refine ⟨?_, ?_, ?_⟩
  · intro h
    unfold startTimer
    rw [h]
  · intro t hfind hcond
    unfold startTimer
    rw [hfind]
    simp only []
    have hc : (t.isRunning || t.isArchived) = true := by
      rcases hcond with h | h <;> simp [h]
    rw [if_pos hc]
  · intro t hfind hrun harch
    unfold startTimer
    rw [hfind]
    simp only []
    have hc : ¬((t.isRunning || t.isArchived) = true) := by
      simp [hrun, harch]
    rw [if_neg hc]
    have hF := find?_updateFirst_id id
      (fun t => { t with isRunning := true, startedAt := some now, lastUpdatedMs := some now })
      (fun a => rfl) st.tasks
    rw [hfind] at hF
    exact ⟨_, hF, rfl, rfl, rfl, rfl⟩

/-- C10: when a session is pending but its task is no longer in the store,
confirming with a non-empty comment changes nothing and the pending session
stays set rather than being consumed. -/
theorem c10_confirm_missing_task (now : Int) (dateStr rawComment : String)
    (st : AppState) (pl : PendingLog) (hp : st.pendingLog = some pl)
    (hfind : st.tasks.find? (fun x => x.id == pl.id) = none)
    (hc : jsTrim rawComment ≠ "") :
    confirmSubmit now dateStr rawComment st = st ∧
    (confirmSubmit now dateStr rawComment st).pendingLog = some pl := by
  have h1 : confirmSubmit now dateStr rawComment st = st := by
    unfold confirmSubmit finalizeLog
    rw [hp]
    simp only []
    rw [if_neg hc]
    rw [hfind]
  refine ⟨h1, ?_⟩
  rw [h1]
  exact hp

end Worklog

namespace Worklog

theorem commitOne_elapsed (tid : String) (st : AppState) (s : SessionCommit)
    (t : Task) (e : Int)
    (hfind : st.tasks.find? (fun x => x.id == tid) = some t)
    (he : t.elapsedMs = some e) :
    ∃ t2, (commitOne tid st s).tasks.find? (fun x => x.id == tid) = some t2 ∧
      t2.elapsedMs = some (e + s.duration) := by
  unfold commitOne
  obtain ⟨h1, _⟩ := finalizeLog_found s.now s.dateStr s.comment
    { st with pendingLog := some { id := tid, duration := some s.duration } }
    { id := tid, duration := some s.duration } t rfl hfind
  refine ⟨_, h1, ?_⟩
  show optAdd t.elapsedMs (some s.duration) = some (e + s.duration)
  rw [he]
  rfl

theorem commitAll_elapsed (tid : String) (ss : List SessionCommit) :
    ∀ (st : AppState) (t : Task) (e : Int),
      st.tasks.find? (fun x => x.id == tid) = some t → t.elapsedMs = some e →
      ∃ t2, (commitAll tid st ss).tasks.find? (fun x => x.id == tid) = some t2 ∧
        t2.elapsedMs = some (e + (ss.map (fun s => s.duration)).sum) := by
  induction ss with
  | nil =>
    intro st t e hfind he
    exact ⟨t, hfind, by simpa using he⟩
  | cons s rest ih =>
    intro st t e hfind he
    obtain ⟨t1, hf1, he1⟩ := commitOne_elapsed tid st s t e hfind he
    obtain ⟨t2, hf2, he2⟩ := ih (commitOne tid st s) t1 (e + s.duration) hf1 he1
    refine ⟨t2, hf2, ?_⟩
    rw [he2]
    congr 1
    simp only [List.map_cons, List.sum_cons]
    ring

/-- C1: a single confirm increments `elapsedMs` by exactly the pending
duration; a sequence of N confirmed sessions adds exactly the sum of their
durations; and the resulting `elapsedMs` is independent of the order the
sessions are committed in. -/
theorem c1_elapsed_additive (tid : String) (st : AppState) (ss : List SessionCommit)
    (t : Task) (e0 : Int)
    (hfind : st.tasks.find? (fun x => x.id == tid) = some t)
    (he : t.elapsedMs = some e0) :
    (∀ (d now2 : Int) (dStr c : String),
      st.pendingLog = some { id := tid, duration := some d } →
      ∃ t1, (finalizeLog now2 dStr c st).tasks.find? (fun x => x.id == tid) = some t1 ∧
        t1.elapsedMs = some (e0 + d)) ∧
    (∃ t2, (commitAll tid st ss).tasks.find? (fun x => x.id == tid) = some t2 ∧
      t2.elapsedMs = some (e0 + (ss.map (fun s => s.duration)).sum)) ∧
    (∀ ss2, ss.Perm ss2 → ∀ t2 t3,
      (commitAll tid st ss).tasks.find? (fun x => x.id == tid) = some t2 →
      (commitAll tid st ss2).tasks.find? (fun x => x.id == tid) = some t3 →
      t3.elapsedMs = t2.elapsedMs) := by
  refine ⟨?_, commitAll_elapsed tid ss st t e0 hfind he, ?_⟩
  · intro d now2 dStr c hp
    obtain ⟨h1, _⟩ := finalizeLog_found now2 dStr c st
      { id := tid, duration := some d } t hp hfind
    refine ⟨_, h1, ?_⟩
    show optAdd t.elapsedMs (some d) = some (e0 + d)
    rw [he]
    rfl
  · intro ss2 hperm t2 t3 h2 h3
    obtain ⟨u2, hu2, hev2⟩ := commitAll_elapsed tid ss st t e0 hfind he
    obtain ⟨u3, hu3, hev3⟩ := commitAll_elapsed tid ss2 st t e0 hfind he
    have e2 : t2 = u2 := by
      rw [h2] at hu2
      exact Option.some.inj hu2
    have e3 : t3 = u3 := by
      rw [h3] at hu3
      exact Option.some.inj hu3
    rw [e2, e3, hev2, hev3]
    have := (hperm.map (fun s => s.duration)).sum_eq
    rw [this]

/-- Witness for C1: two sessions of 5 ms and 7 ms against a fresh task
accumulate to exactly 12 ms. -/
theorem c1_witness :
    ∃ t2, (commitAll "t1" { tasks := [blankTask], pendingLog := none }
        [⟨5, 1, "d1", "c1"⟩, ⟨7, 2, "d2", "c2"⟩]).tasks.find?
          (fun x => x.id == "t1") = some t2 ∧
      t2.elapsedMs = some (0 + (([⟨5, 1, "d1", "c1"⟩, ⟨7, 2, "d2", "c2"⟩] :
        List SessionCommit).map (fun s => s.duration)).sum) :=
  (c1_elapsed_additive "t1" { tasks := [blankTask], pendingLog := none }
    [⟨5, 1, "d1", "c1"⟩, ⟨7, 2, "d2", "c2"⟩] blankTask 0 (by decide) rfl).2.1

end Worklog

namespace Worklog

theorem lookupC_bump (k k2 : String) (m : List (String × Nat)) :
    lookupC (bump k m) k2 = if k = k2 then lookupC m k2 + 1 else lookupC m k2 := by
  induction m with
  | nil =>
    by_cases h : k = k2 <;> simp [bump, lookupC, h]
  | cons e rest ih =>
    obtain ⟨ek, en⟩ := e
    by_cases h1 : ek = k
    · subst h1
      by_cases h2 : ek = k2 <;> simp [bump, lookupC, h2]
    · by_cases h2 : ek = k2
      · subst h2
        have hk : ¬ k = ek := fun h => h1 h.symm
        simp [bump, lookupC, h1, hk]
      · simp [bump, lookupC, h1, h2, ih]

theorem mem_keysOf_bump (k x : String) (m : List (String × Nat)) :
    x ∈ keysOf (bump k m) ↔ x ∈ keysOf m ∨ x = k := by
  induction m with
  | nil => simp [bump, keysOf]
  | cons e rest ih =>
    obtain ⟨ek, en⟩ := e
    by_cases h1 : ek = k <;> simp [bump, keysOf, h1] at ih ⊢ <;> tauto

theorem nodup_keysOf_bump (k : String) (m : List (String × Nat))
    (h : (keysOf m).Nodup) : (keysOf (bump k m)).Nodup := by
  induction m with
  | nil => simp [bump, keysOf]
  | cons e rest ih =>
    obtain ⟨ek, en⟩ := e
    have h' : ek ∉ keysOf rest ∧ (keysOf rest).Nodup := by
      simpa [keysOf] using h
    by_cases h1 : ek = k
    · simpa [bump, keysOf, h1] using h
    · have hnm : ek ∉ keysOf (bump k rest) := by
        rw [mem_keysOf_bump]
        rintro (hm | hm)
        · exact h'.1 hm
        · exact h1 hm
      have hh : keysOf (bump k ((ek, en) :: rest)) = ek :: keysOf (bump k rest) := by
        simp [bump, keysOf, h1]
      rw [hh, List.nodup_cons]
      exact ⟨hnm, ih h'.2⟩

theorem lookupC_of_mem (m : List (String × Nat)) (k : String) (n : Nat)
    (hnd : (keysOf m).Nodup) (hmem : (k, n) ∈ m) : lookupC m k = n := by
  induction m with
  | nil => simp at hmem
  | cons e rest ih =>
    obtain ⟨ek, en⟩ := e
    have h' : ek ∉ keysOf rest ∧ (keysOf rest).Nodup := by
      simpa [keysOf] using hnd
    rcases List.mem_cons.mp hmem with h | h
    · simp only [Prod.mk.injEq] at h
      obtain ⟨hk, hn⟩ := h
      subst hk
      subst hn
      simp [lookupC]
    · by_cases h1 : ek = k
      · exfalso
        apply h'.1
        rw [h1]
        exact List.mem_map.mpr ⟨(k, n), h, rfl⟩
      · simp only [lookupC, h1, if_false]
        exact ih h'.2 h

theorem mem_of_lookupC_pos (m : List (String × Nat)) (k : String)
    (h : 0 < lookupC m k) : (k, lookupC m k) ∈ m := by
  induction m with
  | nil => simp [lookupC] at h
  | cons e rest ih =>
    obtain ⟨ek, en⟩ := e
    by_cases h1 : ek = k
    · subst h1
      simp [lookupC] at h ⊢
    · simp only [lookupC, h1, if_false] at h ⊢
      exact List.mem_cons_of_mem _ (ih h)

end Worklog

namespace Worklog

theorem countsOf_go_lookup (key : Task → String) (tasks : List Task) :
    ∀ (m : List (String × Nat)) (k : String), k ≠ "" →
      lookupC (tasks.foldl (fun m t => let k := key t; if k = "" then m else bump k m) m) k
        = lookupC m k + tasks.countP (fun t => key t == k) := by
  induction tasks with
  | nil =>
    intro m k hk
    simp
  | cons t rest ih =>
    intro m k hk
    simp only [List.foldl_cons, List.countP_cons]
    by_cases h1 : key t = ""
    · have hbk : (key t == k) = false := by
        rw [h1]
        exact beq_false_of_ne (fun h => hk h.symm)
      rw [if_pos h1] at *
      rw [ih m k hk, hbk]
      simp
    · rw [if_neg h1] at *
      rw [ih (bump (key t) m) k hk, lookupC_bump]
      by_cases h2 : key t = k
      · have hbk : (key t == k) = true := beq_iff_eq.mpr h2
        rw [if_pos h2, hbk]
        simp
        omega
      · have hbk : (key t == k) = false := beq_false_of_ne h2
        rw [if_neg h2, hbk]
        simp

theorem countsOf_go_nodup (key : Task → String) (tasks : List Task) :
    ∀ m : List (String × Nat), (keysOf m).Nodup →
      (keysOf (tasks.foldl (fun m t => let k := key t; if k = "" then m else bump k m) m)).Nodup := by
  induction tasks with
  | nil =>
    intro m hm
    simpa using hm
  | cons t rest ih =>
    intro m hm
    simp only [List.foldl_cons]
    by_cases h1 : key t = ""
    · rw [if_pos h1]
      exact ih m hm
    · rw [if_neg h1]
      exact ih (bump (key t) m) (nodup_keysOf_bump _ m hm)

theorem countsOf_go_keys_ne (key : Task → String) (tasks : List Task) :
    ∀ m : List (String × Nat), (∀ x ∈ keysOf m, x ≠ "") →
      ∀ x ∈ keysOf (tasks.foldl (fun m t => let k := key t; if k = "" then m else bump k m) m),
        x ≠ "" := by
  induction tasks with
  | nil =>
    intro m hm
    simpa using hm
  | cons t rest ih =>
    intro m hm
    simp only [List.foldl_cons]
    by_cases h1 : key t = ""
    · rw [if_pos h1]
      exact ih m hm
    · rw [if_neg h1]
      refine ih (bump (key t) m) ?_
      intro x hx
      rcases (mem_keysOf_bump _ x m).mp hx with h | h
      · exact hm x h
      · rw [h]
        exact h1

theorem lookupC_countsOf (key : Task → String) (tasks : List Task) (k : String)
    (hk : k ≠ "") :
    lookupC (countsOf key tasks) k = tasks.countP (fun t => key t == k) := by
  have h := countsOf_go_lookup key tasks [] k hk
  simpa [countsOf, lookupC] using h

theorem nodup_keysOf_countsOf (key : Task → String) (tasks : List Task) :
    (keysOf (countsOf key tasks)).Nodup :=
  countsOf_go_nodup key tasks [] (by simp [keysOf])

theorem keys_ne_countsOf (key : Task → String) (tasks : List Task) :
    ∀ x ∈ keysOf (countsOf key tasks), x ≠ "" :=
  countsOf_go_keys_ne key tasks [] (by simp [keysOf])

theorem mem_dupKeys (key : Task → String) (tasks : List Task) (k : String) :
    k ∈ dupKeys key tasks ↔ k ≠ "" ∧ 2 ≤ tasks.countP (fun t => key t == k) := by
  unfold dupKeys
  constructor
  · intro h
    obtain ⟨e, he, hek⟩ := List.mem_map.mp h
    obtain ⟨hem, hegt⟩ := List.mem_filter.mp he
    have hgt : 1 < e.2 := by simpa using hegt
    have hkmem : k ∈ keysOf (countsOf key tasks) := by
      rw [← hek]
      exact List.mem_map.mpr ⟨e, hem, rfl⟩
    have hk : k ≠ "" := keys_ne_countsOf key tasks k hkmem
    have hl : lookupC (countsOf key tasks) k = e.2 := by
      apply lookupC_of_mem _ _ _ (nodup_keysOf_countsOf key tasks)
      rw [← hek]
      simpa using hem
    refine ⟨hk, ?_⟩
    rw [← lookupC_countsOf key tasks k hk, hl]
    omega
  · rintro ⟨hk, hcount⟩
    have hl : lookupC (countsOf key tasks) k = tasks.countP (fun t => key t == k) :=
      lookupC_countsOf key tasks k hk
    have hpos : 0 < lookupC (countsOf key tasks) k := by omega
    have hmem := mem_of_lookupC_pos (countsOf key tasks) k hpos
    refine List.mem_map.mpr ⟨(k, lookupC (countsOf key tasks) k),
      List.mem_filter.mpr ⟨hmem, ?_⟩, rfl⟩
    simp only [decide_eq_true_eq]
    omega

/-- C6: a trimmed lower-cased key is in the duplicate-names set iff it is
non-empty and at least two tasks carry it as name key, and likewise for
references; concretely, `Alpha` and `alpha ` collide on key `alpha` while
uniquely-named `Beta` is excluded. -/
theorem c6_duplicate_sets (tasks : List Task) (k : String) :
    (k ∈ (calculateDuplicates tasks).1 ↔
      k ≠ "" ∧ 2 ≤ tasks.countP (fun t => nameKey t == k)) ∧
    (k ∈ (calculateDuplicates tasks).2 ↔
      k ≠ "" ∧ 2 ≤ tasks.countP (fun t => referenceKey t == k)) ∧
    ("alpha" ∈ (calculateDuplicates dupExampleTasks).1 ∧
      "beta" ∉ (calculateDuplicates dupExampleTasks).1) := by
  refine ⟨mem_dupKeys nameKey tasks k, mem_dupKeys referenceKey tasks k, by decide⟩

end Worklog

namespace Worklog

theorem timerInv_mono {st : AppState} {now now2 : Int}
    (h : TimerInv st now) (hle : now ≤ now2) : TimerInv st now2 := by
  obtain ⟨h1, h2⟩ := h
  refine ⟨?_, h2⟩
  intro t ht hrun
  obtain ⟨s, hs, hsle⟩ := h1 t ht hrun
  exact ⟨s, hs, le_trans hsle hle⟩

theorem inv1_updateFirst {l : List Task} {now : Int} (p : Task → Bool) (f : Task → Task)
    (h : ∀ t ∈ l, t.isRunning = true → ∃ s, t.startedAt = some s ∧ s ≤ now)
    (hf : ∀ t ∈ l, (f t).isRunning = true → ∃ s, (f t).startedAt = some s ∧ s ≤ now) :
    ∀ t ∈ updateFirst p f l, t.isRunning = true → ∃ s, t.startedAt = some s ∧ s ≤ now := by
  intro t ht hrun
  rcases mem_updateFirst p f l t ht with h1 | ⟨y, hy, rfl⟩
  · exact h t h1 hrun
  · exact hf y hy hrun

theorem startTimer_inv {st : AppState} {now : Int} (id : String)
    (h : TimerInv st now) : TimerInv (startTimer now id st) now := by
  obtain ⟨h1, h2⟩ := h
  unfold startTimer
  cases hfind : st.tasks.find? (fun t => t.id == id) with
  | none => exact ⟨h1, h2⟩
  | some task =>
    simp only []
    by_cases hc : (task.isRunning || task.isArchived) = true
    · rw [if_pos hc]
      exact ⟨h1, h2⟩
    · rw [if_neg hc]
      refine ⟨?_, h2⟩
      refine inv1_updateFirst _ _ h1 ?_
      intro t ht _
      exact ⟨now, rfl, le_refl now⟩

theorem stopTimer_inv {st : AppState} {now : Int} (id : String)
    (h : TimerInv st now) : TimerInv (stopTimer now id st) now := by
  obtain ⟨h1, h2⟩ := h
  unfold stopTimer
  cases hfind : st.tasks.find? (fun t => t.id == id) with
  | none => exact ⟨h1, h2⟩
  | some task =>
    simp only []
    by_cases hc : (!task.isRunning) = true
    · rw [if_pos hc]
      exact ⟨h1, h2⟩
    · rw [if_neg hc]
      constructor
      · refine inv1_updateFirst _ _ h1 ?_
        intro t ht hrun
        simp at hrun
      · intro pl hpl
        simp only [Option.some.injEq] at hpl
        have hrun : task.isRunning = true := by
          cases hr : task.isRunning
          · rw [hr] at hc
            simp at hc
          · rfl
        obtain ⟨s, hs, hsle⟩ := h1 task (List.mem_of_find?_eq_some hfind) hrun
        refine ⟨now - s, ?_, by omega⟩
        rw [← hpl]
        simp only []
        rw [hs]
        rfl

theorem finalizeLog_inv {st : AppState} {now : Int} (now2 : Int) (dateStr comment : String)
    (h : TimerInv st now) : TimerInv (finalizeLog now2 dateStr comment st) now := by
  obtain ⟨h1, h2⟩ := h
  unfold finalizeLog
  cases hp : st.pendingLog with
  | none => exact ⟨h1, h2⟩
  | some pl =>
    simp only []
    cases hfind : st.tasks.find? (fun t => t.id == pl.id) with
    | none => exact ⟨h1, h2⟩
    | some task =>
      simp only []
      constructor
      · refine inv1_updateFirst _ _ h1 ?_
        intro t ht hrun
        exact h1 t ht hrun
      · intro pl2 hpl2
        simp at hpl2

theorem confirmSubmit_inv {st : AppState} {now : Int} (now2 : Int)
    (dateStr rawComment : String)
    (h : TimerInv st now) : TimerInv (confirmSubmit now2 dateStr rawComment st) now := by
  unfold confirmSubmit
  cases hp : st.pendingLog with
  | none => exact h
  | some pl =>
    simp only []
    by_cases hc : jsTrim rawComment = ""
    · rw [if_pos hc]
      exact h
    · rw [if_neg hc]
      exact finalizeLog_inv now2 dateStr (jsTrim rawComment) h

theorem discardLog_inv {st : AppState} {now : Int} (now2 : Int)
    (h : TimerInv st now) : TimerInv (discardLog now2 st) now := by
  obtain ⟨h1, h2⟩ := h
  unfold discardLog
  cases hp : st.pendingLog with
  | none => exact ⟨h1, h2⟩
  | some pl =>
    simp only []
    constructor
    · refine inv1_updateFirst _ _ h1 ?_
      intro t ht hrun
      simp at hrun
    · intro pl2 hpl2
      simp at hpl2

theorem createTask_inv {st : AppState} {now : Int} (raw : Task)
    (h : TimerInv st now) : TimerInv (createTask now raw st) now := by
  obtain ⟨h1, h2⟩ := h
  refine ⟨?_, h2⟩
  intro t ht hrun
  rcases List.mem_cons.mp ht with h | h
  · rw [h] at hrun
    simp [normalizeTask] at hrun
  · exact h1 t h hrun

theorem archiveTask_inv {st : AppState} {now : Int} (id : String)
    (h : TimerInv st now) : TimerInv (archiveTask now id st) now := by
  obtain ⟨h1, h2⟩ := h
  unfold archiveTask
  cases hfind : st.tasks.find? (fun t => t.id == id) with
  | none => exact ⟨h1, h2⟩
  | some task =>
    simp only []
    by_cases hc : task.isRunning = true
    · rw [if_pos hc]
      exact ⟨h1, h2⟩
    · rw [if_neg hc]
      refine ⟨?_, h2⟩
      refine inv1_updateFirst _ _ h1 ?_
      intro t ht hrun
      exact h1 t ht hrun

theorem deleteTask_inv {st : AppState} {now : Int} (id : String)
    (h : TimerInv st now) : TimerInv (deleteTask id st) now := by
  obtain ⟨h1, h2⟩ := h
  unfold deleteTask
  cases hfind : st.tasks.find? (fun t => t.id == id) with
  | none => exact ⟨h1, h2⟩
  | some task =>
    simp only []
    by_cases hc : task.isRunning = true
    · rw [if_pos hc]
      exact ⟨h1, h2⟩
    · rw [if_neg hc]
      refine ⟨?_, h2⟩
      intro t ht hrun
      exact h1 t (mem_removeFirst _ _ t ht) hrun

theorem markChecked_inv {st : AppState} {now : Int} (id : String)
    (h : TimerInv st now) : TimerInv (markChecked now id st) now := by
  obtain ⟨h1, h2⟩ := h
  unfold markChecked
  cases hfind : st.tasks.find? (fun t => t.id == id) with
  | none => exact ⟨h1, h2⟩
  | some task =>
    simp only []
    refine ⟨?_, h2⟩
    refine inv1_updateFirst _ _ h1 ?_
    intro t ht hrun
    exact h1 t ht hrun

theorem step_inv {st st2 : AppState} {now : Int}
    (h : TimerInv st now) (hs : Step st now st2) : TimerInv st2 now := by
  cases hs with
  | start now id st => exact startTimer_inv id h
  | stop now id st => exact stopTimer_inv id h
  | confirm now dateStr rawComment st => exact confirmSubmit_inv now dateStr rawComment h
  | discard now st => exact discardLog_inv now h
  | create now raw st => exact createTask_inv raw h
  | archive now id st => exact archiveTask_inv id h
  | deleteT now id st => exact deleteTask_inv id h
  | check now id st => exact markChecked_inv id h

theorem reachable_inv {st : AppState} {now : Int}
    (h : ReachableAt st now) : TimerInv st now := by
  induction h with
  | init now saved =>
    constructor
    · intro t ht hrun
      rcases List.mem_map.mp ht with ⟨t0, _, rfl⟩
      simp [normalizeTask] at hrun
    · intro pl hpl
      simp at hpl
  | step hr hle hs ih =>
    exact step_inv (timerInv_mono ih hle) hs

end Worklog

namespace Worklog

/-- C7: in every reachable state, stopping a task that has no recorded
`startedAt` is a no-op (the running guard plus the invariant that a running
task always carries a start instant make the two coincide), and any pending
session exposed after a stop holds a real, non-NaN duration `≥ 0`. -/
theorem c7_stop_safety (st : AppState) (now now2 : Int) (id : String)
    (hr : ReachableAt st now) (hle : now ≤ now2) :
    (∀ t, st.tasks.find? (fun x => x.id == id) = some t → t.startedAt = none →
      stopTimer now2 id st = st) ∧
    (∀ pl, (stopTimer now2 id st).pendingLog = some pl →
      ∃ d, pl.duration = some d ∧ 0 ≤ d) := by
  have hinv := timerInv_mono (reachable_inv hr) hle
  obtain ⟨h1, h2⟩ := hinv
  constructor
  · intro t hfind hsa
    unfold stopTimer
    rw [hfind]
    simp only []
    have hrun : t.isRunning = false := by
      cases hb : t.isRunning
      · rfl
      · exfalso
        obtain ⟨s, hs, _⟩ := h1 t (List.mem_of_find?_eq_some hfind) hb
        rw [hsa] at hs
        exact Option.noConfusion hs
    rw [if_pos (by rw [hrun]; rfl)]
  · intro pl hpl
    exact (stopTimer_inv id ⟨h1, h2⟩).2 pl hpl

/-- Witness for C7: in the freshly loaded one-task state, stopping the task
(which records no `startedAt`) at a later instant changes nothing. -/
theorem c7_witness :
    stopTimer 3 "t1" { tasks := loadTasks 0 [blankTask], pendingLog := none } =
      { tasks := loadTasks 0 [blankTask], pendingLog := none } :=
  (c7_stop_safety { tasks := loadTasks 0 [blankTask], pendingLog := none } 0 3 "t1"
    (ReachableAt.init 0 [blankTask]) (by decide)).1 (normalizeTask 0 blankTask) (by decide) rfl

end Worklog

namespace Worklog

/-- Witness for C2: with a 4 ms session pending, confirming with a
whitespace-only comment leaves the state untouched. -/
theorem c2_witness :
    confirmSubmit 1 "d" "   "
        { tasks := [blankTask], pendingLog := some { id := "t1", duration := some 4 } } =
      { tasks := [blankTask], pendingLog := some { id := "t1", duration := some 4 } } :=
  ((c2_confirm_requires_comment 1 "d" "   "
    { tasks := [blankTask], pendingLog := some { id := "t1", duration := some 4 } }
    { id := "t1", duration := some 4 } rfl).1 (by decide)).1

/-- Witness for C4: discarding a pending 4 ms session keeps `elapsedMs` and
`logs`, marks the discard, and clears the pending slot. -/
theorem c4_witness :
    ∃ t2, (discardLog 2
        { tasks := [blankTask], pendingLog := some { id := "t1", duration := some 4 } }).tasks.find?
          (fun x => x.id == "t1") = some t2 ∧
      t2.elapsedMs = blankTask.elapsedMs ∧ t2.logs = blankTask.logs ∧
      t2.lastLog = some "Discarded session" ∧ t2.isRunning = false ∧
      (discardLog 2
        { tasks := [blankTask], pendingLog := some { id := "t1", duration := some 4 } }).pendingLog = none :=
  c4_discard_frame 2
    { tasks := [blankTask], pendingLog := some { id := "t1", duration := some 4 } }
    { id := "t1", duration := some 4 } blankTask rfl (by decide)

/-- Witness for C8: starting the idle, unarchived sample task marks it
running from instant 5. -/
theorem c8_witness :
    ∃ t2, (startTimer 5 "t1" { tasks := [blankTask], pendingLog := none }).tasks.find?
        (fun x => x.id == "t1") = some t2 ∧
      t2.isRunning = true ∧ t2.startedAt = some 5 ∧ t2.lastUpdatedMs = some 5 ∧
      (startTimer 5 "t1" { tasks := [blankTask], pendingLog := none }).pendingLog =
        ({ tasks := [blankTask], pendingLog := none } : AppState).pendingLog :=
  (c8_start_noop_or_start 5 "t1" { tasks := [blankTask], pendingLog := none }).2.2
    blankTask (by decide) rfl rfl

/-- Witness for C10: with a pending session whose task was deleted,
confirming with a real comment leaves the pending session in place. -/
theorem c10_witness :
    confirmSubmit 1 "d" "hello"
        { tasks := [], pendingLog := some { id := "gone", duration := some 4 } } =
      { tasks := [], pendingLog := some { id := "gone", duration := some 4 } } ∧
    (confirmSubmit 1 "d" "hello"
        { tasks := [], pendingLog := some { id := "gone", duration := some 4 } }).pendingLog =
      some { id := "gone", duration := some 4 } :=
  c10_confirm_missing_task 1 "d" "hello"
    { tasks := [], pendingLog := some { id := "gone", duration := some 4 } }
    { id := "gone", duration := some 4 } rfl rfl (by decide)

end Worklog
